import Mathlib

/-!
A verification development of the Talend job-summary extractor
(`parse_talend_xml` in `app1.py` of TalendtoDbtConverter).

The XML tree below models the value produced by
`xml.etree.ElementTree.fromstring`: an element has a tag, an attribute
list, an optional text content (`none` when the element carries no text
node — ElementTree never produces an empty-string text for a parsed
document), and its children in document order.  `Except String Xml`
models the outcome of `ET.fromstring`, with `Except.error` standing for
`ET.ParseError`.
-/

mutual

/-- An XML element as produced by `xml.etree.ElementTree`. -/
inductive Xml where
  | elem (tag : String) (attrs : List (String × String)) (text : Option String)
      (children : XmlList)

/-- A list of sibling elements in document order. -/
inductive XmlList where
  | nil : XmlList
  | cons : Xml → XmlList → XmlList

end

def Xml.tag : Xml → String
  | .elem t _ _ _ => t

def Xml.attrsOf : Xml → List (String × String)
  | .elem _ a _ _ => a

def Xml.text : Xml → Option String
  | .elem _ _ tx _ => tx

/-- `element.get(key)`: the value of attribute `key`, or Python `None`. -/
def Xml.attr (x : Xml) (k : String) : Option String :=
  (x.attrsOf.find? (fun q => q.1 == k)).map (fun q => q.2)

mutual

/-- All strict descendants of an element in document order: the model of
ElementTree's `.//` (descendant) axis used by `find`/`findall`. -/
def Xml.descendants : Xml → List Xml
  | .elem _ _ _ cs => XmlList.descList cs

/-- Descendants-with-self of every element of a sibling list, concatenated
in document order. -/
def XmlList.descList : XmlList → List Xml
  | .nil => []
  | .cons c cs => c :: Xml.descendants c ++ XmlList.descList cs

end

/-- `root.findall('.//t')`: every descendant element with tag `t`. -/
def Xml.findall (x : Xml) (t : String) : List Xml :=
  x.descendants.filter (fun e => e.tag == t)

/-- `root.find('.//t')`: the first descendant with tag `t`, if any. -/
def Xml.findFirst (x : Xml) (t : String) : Option Xml :=
  (x.findall t).head?

/-- `node.find('.//t[@k="v"]')`: the first descendant with tag `t` whose
attribute `k` is present and equals `v`. -/
def Xml.findAttr (x : Xml) (t k v : String) : Option Xml :=
  (x.descendants.filter (fun e => e.tag == t && e.attr k == some v)).head?

/-- Python's `value.strip('"')`: remove every leading and every trailing
quote character. -/
def stripQuotes (s : String) : String :=
  String.mk (((s.toList.dropWhile (fun c => c == '\"')).reverse.dropWhile
    (fun c => c == '\"')).reverse)

/-- The value stored against a key of a component's parameter dictionary: a
string, or Python `None` (reachable only through the tMap raw captures). -/
abbrev ParamVal := Option String

/-- Insertion-ordered model of Python `d[k] = v` on a `dict`: replace the
value in place when the key exists, otherwise append the new binding. -/
def dictInsert : List (String × ParamVal) → String → ParamVal → List (String × ParamVal)
  | [], k, v => [(k, v)]
  | q :: d, k, v => if q.1 == k then (k, v) :: d else q :: dictInsert d k v

/-- The denylisted parameter names of `parse_talend_xml`, in source order
(the source lists `ACTIVATE` twice; the duplicate is kept). -/
def denylist : List String :=
  ["UNIQUE_NAME", "COMPONENT_NAME", "LABEL", "CONNECTION_FORMAT",
   "CHECK_NUM", "CHECK_UNIQUE_NAME", "ACTIVATE", "LOG4J_ACTIVATE",
   "START", "STARTABLE", "SUBTREE_START", "END_OF_FLOW", "ACTIVATE",
   "PROCESS_TYPE_VERSION", "PROCESS_TYPE_CONTEXT", "PROCESS_TYPE_PROCESS",
   "QUERYSTORE", "UPDATE_COMPONENTS", "CURRENT_OS"]

/-- `value = param.text if param.text is not None else param.get('value')`. -/
def resolveValue (p : Xml) : Option String :=
  match p.text with
  | some t => some t
  | none => p.attr "value"

/-- The generic insertion of the parameter loop body:
`if value is not None and field and name and name not in [...]:
params[name] = cleaned_value`. -/
def genericParamInsert (params : List (String × ParamVal)) (p : Xml) :
    List (String × ParamVal) :=
  match resolveValue p, p.attr "field", p.attr "name" with
  | some v, some f, some n =>
    if f ≠ "" ∧ n ≠ "" ∧ n ∉ denylist then dictInsert params n (some (stripQuotes v))
    else params
  | _, _, _ => params

/-- Python truthiness of an optional string: not `None` and not empty. -/
def truthy : Option String → Bool
  | none => false
  | some s => !(s == "")

/-- The promotion chain of the parameter loop body: the tMap raw captures,
else the `QUERY` / `FILENAME` / `TABLE` promotions (an `elif` chain, so a
tMap component never reaches the latter three). -/
def promoteParam (componentName : Option String) (params : List (String × ParamVal))
    (p : Xml) : List (String × ParamVal) :=
  let name := p.attr "name"
  let value := resolveValue p
  if componentName = some "tMap" then
    let params2 :=
      if name = some "VAR_TABLE" then dictInsert params "tMap_variables_raw" value
      else params
    if name = some "OUTPUT_TABLES" then dictInsert params2 "tMap_outputs_raw" value
    else params2
  else if name = some "QUERY" ∧ truthy value then
    dictInsert params "sql_query" (some (stripQuotes (value.getD "")))
  else if name = some "FILENAME" ∧ truthy value then
    dictInsert params "filepath" (some (stripQuotes (value.getD "")))
  else if name = some "TABLE" ∧ truthy value then
    dictInsert params "db_table_name" (some (stripQuotes (value.getD "")))
  else params

/-- One iteration of the `for param in node.findall('.//elementParameter')`
loop body: the generic denylist-filtered insertion, then the promotion
chain, on the same resolved `field` / `name` / `value`. -/
def processParam (componentName : Option String) (params : List (String × ParamVal))
    (p : Xml) : List (String × ParamVal) :=
  promoteParam componentName (genericParamInsert params p) p

/-- The `LABEL` override: the first descendant
`elementParameter[@name="LABEL"]` carrying a truthy `value` attribute gives
the quote-stripped label. -/
def labelOverride (node : Xml) : Option String :=
  match node.findAttr "elementParameter" "name" "LABEL" with
  | some lp =>
    match lp.attr "value" with
    | some v => if v ≠ "" then some (stripQuotes v) else none
    | none => none
  | none => none

/-- The `HINT` parameter: the first descendant
`elementParameter[@name="HINT"]` carrying a truthy `value` attribute gives
the quote-stripped hint. -/
def hintValue (node : Xml) : Option String :=
  match node.findAttr "elementParameter" "name" "HINT" with
  | some hp =>
    match hp.attr "value" with
    | some v => if v ≠ "" then some (stripQuotes v) else none
    | none => none
  | none => none

/-- One column record of a metadata schema. -/
structure Column where
  name : Option String
  talend_type : Option String
  key : Bool
  nullable : Bool
  length : Option String
  precision : Option String
  comment : Option String
  default : Option String
deriving DecidableEq

/-- The body of the `for col in meta_conn.findall('.//column')` loop. -/
def extractColumn (col : Xml) : Column :=
  { name := col.attr "name"
    talend_type := col.attr "type"
    key := (col.attr "key").getD "false" == "true"
    nullable := (col.attr "nullable").getD "true" == "true"
    length := col.attr "length"
    precision := col.attr "precision"
    comment := col.attr "comment"
    default :=
      match col.attr "defaultValue" with
      | some v => if v ≠ "" then some (stripQuotes v) else none
      | none => none }

/-- A metadata schema scoped to one component. -/
structure Schema where
  connector_type : Option String
  name : Option String
  columns : List Column
deriving DecidableEq

/-- The body of the `for meta_conn in node.findall('.//metadata')` loop. -/
def extractSchema (m : Xml) : Schema :=
  { connector_type := m.attr "connector"
    name := m.attr "name"
    columns := (m.findall "column").map extractColumn }

/-- One entry of `summary["components"]`. -/
structure Component where
  type : Option String
  unique_name : Option String
  label : Option String
  parameters : List (String × ParamVal)
  metadata : List Schema
deriving DecidableEq

/-- The body of the `for node in root.findall('.//node')` loop, without the
job-level metadata merge. -/
def extractComponent (node : Xml) : Component :=
  let componentName := node.attr "componentName"
  let uniqueName := node.attr "uniqueName"
  let params := (node.findall "elementParameter").foldl (processParam componentName) []
  let label :=
    match labelOverride node with
    | some v => some v
    | none => uniqueName
  let params :=
    match hintValue node with
    | some h => dictInsert params "hint" (some h)
    | none => params
  { type := componentName, unique_name := uniqueName, label := label,
    parameters := params, metadata := (node.findall "metadata").map extractSchema }

/-- One entry of `summary["connections"]`. -/
structure Connection where
  source_component_id : Option String
  target_component_id : Option String
  connector_name : Option String
  line_style : Option String
  metadata_name : Option String
deriving DecidableEq

/-- The body of the `for conn in root.findall('.//connection')` loop. -/
def extractConnection (c : Xml) : Connection :=
  { source_component_id := c.attr "source"
    target_component_id := c.attr "target"
    connector_name := c.attr "connectorName"
    line_style := c.attr "lineStyle"
    metadata_name := c.attr "metaname" }

/-- The job-level metadata merge of one schema:
`if meta_name and meta_name not in summary["metadata"]`, first seen wins. -/
def mergeSchema (m : List (String × List Column)) (s : Schema) :
    List (String × List Column) :=
  match s.name with
  | some n =>
    if n ≠ "" ∧ ¬ m.any (fun q => q.1 == n) then m ++ [(n, s.columns)] else m
  | none => m

/-- The dictionary returned by `parse_talend_xml`; `error = none` models the
`error` key being absent. -/
structure JobSummary where
  job_name : String
  components : List Component
  connections : List Connection
  metadata : List (String × List Column)
  notes : List (Option String)
  error : Option String
deriving DecidableEq

/-- The parsed tag of an element written `TalendProperties:Property` under
the source's namespace map: ElementTree expands the prefix to the full
brace-delimited namespace URI. -/
def talendPropertyTag : String :=
  "\x7bhttp://www.talend.org/properties\x7dProperty"

/-- The `processType` fallback of the job-name lookup. -/
def resolveJobNameFallback (root : Xml) : String :=
  match root.findFirst "processType" with
  | some pt =>
    match pt.attr "name" with
    | some n => if n ≠ "" then n else "unknown_job"
    | none => "unknown_job"
  | none => "unknown_job"

/-- The two-tier job-name lookup: a namespaced `Property` element with a
truthy `label`, else a `processType` element with a truthy `name`, else the
sentinel `"unknown_job"`. -/
def resolveJobName (root : Xml) : String :=
  match root.findFirst talendPropertyTag with
  | some jobInfo =>
    match jobInfo.attr "label" with
    | some l => if l ≠ "" then l else resolveJobNameFallback root
    | none => resolveJobNameFallback root
  | none => resolveJobNameFallback root

/-- The success path of `parse_talend_xml` over a parsed tree. -/
def extractSummary (root : Xml) : JobSummary :=
  let components := (root.findall "node").map extractComponent
  { job_name := resolveJobName root
    components := components
    connections := (root.findall "connection").map extractConnection
    metadata := (components.flatMap Component.metadata).foldl mergeSchema []
    notes := (root.findall "note").map (fun e => e.attr "text")
    error := none }

/-- `parse_talend_xml`: the input models the outcome of `ET.fromstring`; on
a parse error the summary keeps its defaults and records the failure. -/
def parse_talend_xml (input : Except String Xml) : JobSummary :=
  match input with
  | .error e =>
    { job_name := "unknown_job", components := [], connections := [],
      metadata := [], notes := [], error := some ("Failed to parse XML: " ++ e) }
  | .ok root => extractSummary root

/-- The parameter keys a promotion step may introduce. -/
def promotedKeys : List String :=
  ["sql_query", "filepath", "db_table_name", "tMap_variables_raw", "tMap_outputs_raw"]

/-- The `(parameter name, promoted key)` pairs of the non-tMap promotions. -/
def promotionPairs : List (String × String) :=
  [("QUERY", "sql_query"), ("FILENAME", "filepath"), ("TABLE", "db_table_name")]


deriving instance DecidableEq for Xml

/-! Concrete sample documents used to evaluate the extractor on closed
inputs.  Each mirrors a small Talend `.item` fragment. -/

/-- A `FILENAME` parameter whose `value` attribute carries quotes. -/
def sampleFileParam : Xml :=
  .elem "elementParameter" [("field", "TEXT"), ("name", "FILENAME"),
    ("value", "\"/data/in.csv\"")] none .nil

/-- A `tFileInputFile` node with one `FILENAME` parameter and no `LABEL`. -/
def sampleFileNode : Xml :=
  .elem "node" [("componentName", "tFileInputFile"), ("uniqueName", "tFileInputFile_1")]
    none (.cons sampleFileParam .nil)

/-- A document with a single `tFileInputFile` node. -/
def sampleFileDoc : Xml := .elem "talendfile" [] none (.cons sampleFileNode .nil)

/-- A `QUERY` parameter with the quoted value `"SELECT 1"`. -/
def tMapQueryParam : Xml :=
  .elem "elementParameter" [("field", "MEMO_SQL"), ("name", "QUERY"),
    ("value", "\"SELECT 1\"")] none .nil

/-- A `tMap` node carrying the quoted `QUERY` parameter. -/
def tMapQueryNode : Xml :=
  .elem "node" [("componentName", "tMap"), ("uniqueName", "tMap_1")] none
    (.cons tMapQueryParam .nil)

/-- A `QUERY` parameter whose value is the empty string (non-null). -/
def emptyQueryParam : Xml :=
  .elem "elementParameter" [("field", "MEMO_SQL"), ("name", "QUERY"), ("value", "")]
    none .nil

/-- A `tDBInput` node carrying the empty-valued `QUERY` parameter. -/
def emptyQueryNode : Xml :=
  .elem "node" [("componentName", "tDBInput"), ("uniqueName", "tDBInput_1")] none
    (.cons emptyQueryParam .nil)

/-- A document with a tMap node and a node with an empty `QUERY` value. -/
def promotionCexDoc : Xml :=
  .elem "r" [] none (.cons tMapQueryNode (.cons emptyQueryNode .nil))

/-- A `QUERY` parameter with the quoted value `"SELECT 1"` on a non-tMap node. -/
def dbQueryParam : Xml :=
  .elem "elementParameter" [("field", "MEMO_SQL"), ("name", "QUERY"),
    ("value", "\"SELECT 1\"")] none .nil

/-- A `tDBInput` node carrying the quoted `QUERY` parameter. -/
def dbQueryNode : Xml :=
  .elem "node" [("componentName", "tDBInput"), ("uniqueName", "tDBInput_2")] none
    (.cons dbQueryParam .nil)

/-- A non-denylisted custom parameter with a field. -/
def customParam : Xml :=
  .elem "elementParameter" [("field", "TEXT"), ("name", "CUSTOM"), ("value", "v1")]
    none .nil

/-- A node carrying the custom parameter. -/
def customNode : Xml :=
  .elem "node" [("componentName", "tX"), ("uniqueName", "tX_1")] none
    (.cons customParam .nil)

/-- A document with the custom-parameter node. -/
def customDoc : Xml := .elem "r" [] none (.cons customNode .nil)

/-- First column of the duplicated schema name. -/
def sampleColA : Xml := .elem "column" [("name", "a"), ("type", "id_String")] none .nil

/-- Second column, in the later schema of the same name. -/
def sampleColB : Xml := .elem "column" [("name", "b"), ("type", "id_Integer")] none .nil

/-- A schema named `row1` with column `a`. -/
def sampleMeta1 : Xml :=
  .elem "metadata" [("connector", "FLOW"), ("name", "row1")] none (.cons sampleColA .nil)

/-- A second schema also named `row1`, with column `b`. -/
def sampleMeta2 : Xml :=
  .elem "metadata" [("connector", "FLOW"), ("name", "row1")] none (.cons sampleColB .nil)

/-- First component carrying the first `row1` schema. -/
def sampleMetaNode1 : Xml :=
  .elem "node" [("componentName", "tA"), ("uniqueName", "tA_1")] none
    (.cons sampleMeta1 .nil)

/-- Second component carrying the second `row1` schema. -/
def sampleMetaNode2 : Xml :=
  .elem "node" [("componentName", "tB"), ("uniqueName", "tB_1")] none
    (.cons sampleMeta2 .nil)

/-- A document with two components whose schemas share the name `row1`. -/
def sampleMetaDoc : Xml :=
  .elem "r" [] none (.cons sampleMetaNode1 (.cons sampleMetaNode2 .nil))

/-- A parameter with a name and value but no `field` attribute. -/
def noFieldParam : Xml :=
  .elem "elementParameter" [("name", "CUSTOM"), ("value", "x")] none .nil

/-- A node carrying only the field-less parameter. -/
def noFieldNode : Xml :=
  .elem "node" [("componentName", "tX"), ("uniqueName", "tX_1")] none
    (.cons noFieldParam .nil)

/-- A node element with no attributes at all. -/
def bareNode : Xml := .elem "node" [] none .nil

/-- A document containing only the attribute-less node. -/
def bareDoc : Xml := .elem "r" [] none (.cons bareNode .nil)

/-- A document with no `Property` and no `processType` elements. -/
def emptyDoc : Xml := .elem "r" [] none .nil

/-- An element carrying both a text node and a `value` attribute. -/
def textValueElem : Xml :=
  .elem "elementParameter" [("name", "P"), ("value", "v")] (some "t") .nil

/-- An element carrying only a `value` attribute and no text. -/
def attrValueElem : Xml :=
  .elem "elementParameter" [("name", "P"), ("value", "v")] none .nil


lemma mem_dictInsert {d : List (String × ParamVal)} {k : String} {v : ParamVal}
    {x : String × ParamVal} (hx : x ∈ dictInsert d k v) : x ∈ d ∨ x = (k, v) := by
  induction d with
  | nil =>
    simp only [dictInsert, List.mem_singleton] at hx
    exact Or.inr hx
  | cons q d ih =>
    by_cases h : (q.1 == k) = true
    · simp only [dictInsert, h, if_true, List.mem_cons] at hx
      rcases hx with hx | hx
      · exact Or.inr hx
      · exact Or.inl (List.mem_cons_of_mem _ hx)
    · simp only [dictInsert, h, if_false, Bool.false_eq_true, List.mem_cons] at hx
      rcases hx with hx | hx
      · exact Or.inl (hx ▸ List.mem_cons_self _ _)
      · rcases ih hx with h1 | h1
        · exact Or.inl (List.mem_cons_of_mem _ h1)
        · exact Or.inr h1

lemma dictInsert_find_self (d : List (String × ParamVal)) (k : String) (v : ParamVal) :
    (dictInsert d k v).find? (fun q => q.1 == k) = some (k, v) := by
  induction d with
  | nil => simp [dictInsert]
  | cons q d ih =>
    cases hqk : (q.1 == k) with
    | true => simp [dictInsert, hqk, List.find?_cons]
    | false => simp [dictInsert, hqk, List.find?_cons, ih]

lemma dictInsert_find_ne {k' k : String} (hne : k' ≠ k)
    (d : List (String × ParamVal)) (v : ParamVal) :
    (dictInsert d k v).find? (fun q => q.1 == k') = d.find? (fun q => q.1 == k') := by
  have hkk : (k == k') = false := beq_eq_false_iff_ne.mpr (Ne.symm hne)
  induction d with
  | nil => simp [dictInsert, List.find?_cons, hkk]
  | cons q d ih =>
    cases hqk : (q.1 == k) with
    | true =>
      have hq : q.1 = k := by simpa using hqk
      simp [dictInsert, hqk, List.find?_cons, hq, hkk]
    | false => cases hqk' : (q.1 == k') <;>
        simp [dictInsert, hqk, hqk', List.find?_cons, ih]

lemma keys_dictInsert_self (d : List (String × ParamVal)) (k : String) (v : ParamVal) :
    k ∈ (dictInsert d k v).map Prod.fst := by
  induction d with
  | nil => simp [dictInsert]
  | cons q d ih =>
    by_cases h : (q.1 == k) = true
    · simp [dictInsert, h]
    · simp only [dictInsert, h, if_false, Bool.false_eq_true, List.map_cons, List.mem_cons]
      exact Or.inr ih

lemma keys_dictInsert_mono {d : List (String × ParamVal)} {k' : String}
    (h : k' ∈ d.map Prod.fst) (k : String) (v : ParamVal) :
    k' ∈ (dictInsert d k v).map Prod.fst := by
  induction d with
  | nil => simp at h
  | cons q d ih =>
    by_cases hq : (q.1 == k) = true
    · have : q.1 = k := by simpa using hq
      simp only [List.map_cons, List.mem_cons] at h
      simp only [dictInsert, hq, if_true, List.map_cons, List.mem_cons]
      rcases h with h | h
      · exact Or.inl (by rw [h, this])
      · exact Or.inr h
    · simp only [List.map_cons, List.mem_cons] at h
      simp only [dictInsert, hq, if_false, Bool.false_eq_true, List.map_cons, List.mem_cons]
      rcases h with h | h
      · exact Or.inl h
      · exact Or.inr (ih h)

lemma mem_genericParamInsert {params : List (String × ParamVal)} {p : Xml}
    {x : String × ParamVal} (hx : x ∈ genericParamInsert params p) :
    x ∈ params ∨
      (p.attr "name" = some x.1 ∧ x.1 ∉ denylist ∧
        ∃ f, p.attr "field" = some f ∧ f ≠ "") := by
  rcases hv : resolveValue p with _ | v
  · unfold genericParamInsert at hx
    rw [hv] at hx
    exact Or.inl hx
  rcases hf : p.attr "field" with _ | f
  · unfold genericParamInsert at hx
    rw [hv, hf] at hx
    exact Or.inl hx
  rcases hn : p.attr "name" with _ | n
  · unfold genericParamInsert at hx
    rw [hv, hf, hn] at hx
    exact Or.inl hx
  unfold genericParamInsert at hx
  rw [hv, hf, hn] at hx
  have hx' : x ∈ (if f ≠ "" ∧ n ≠ "" ∧ n ∉ denylist
      then dictInsert params n (some (stripQuotes v)) else params) := hx
  by_cases hcond : f ≠ "" ∧ n ≠ "" ∧ n ∉ denylist
  · rw [if_pos hcond] at hx'
    rcases mem_dictInsert hx' with h1 | h1
    · exact Or.inl h1
    · refine Or.inr ?_
      rw [h1]
      exact ⟨rfl, hcond.2.2, f, rfl, hcond.1⟩
  · rw [if_neg hcond] at hx'
    exact Or.inl hx'

lemma keys_genericParamInsert_mono {params : List (String × ParamVal)} {p : Xml}
    {k : String} (hk : k ∈ params.map Prod.fst) :
    k ∈ (genericParamInsert params p).map Prod.fst := by
  rcases hv : resolveValue p with _ | v
  · unfold genericParamInsert
    rw [hv]
    exact hk
  rcases hf : p.attr "field" with _ | f
  · unfold genericParamInsert
    rw [hv, hf]
    exact hk
  rcases hn : p.attr "name" with _ | n
  · unfold genericParamInsert
    rw [hv, hf, hn]
    exact hk
  unfold genericParamInsert
  rw [hv, hf, hn]
  show k ∈ (if f ≠ "" ∧ n ≠ "" ∧ n ∉ denylist
      then dictInsert params n (some (stripQuotes v)) else params).map Prod.fst
  by_cases hcond : f ≠ "" ∧ n ≠ "" ∧ n ∉ denylist
  · rw [if_pos hcond]
    exact keys_dictInsert_mono hk _ _
  · rw [if_neg hcond]
    exact hk

lemma mem_promoteParam {cn : Option String} {params : List (String × ParamVal)} {p : Xml}
    {x : String × ParamVal} (hx : x ∈ promoteParam cn params p) :
    x ∈ params ∨ x.1 ∈ promotedKeys := by
  unfold promoteParam at hx
  by_cases hcn : cn = some "tMap"
  · rw [if_pos hcn] at hx
    by_cases h1 : p.attr "name" = some "VAR_TABLE"
    · simp only [h1, Option.some.injEq, reduceIte] at hx
      rcases mem_dictInsert hx with h3 | h3
      · exact Or.inl h3
      · rw [h3]; exact Or.inr (by simp [promotedKeys])
    · by_cases h2 : p.attr "name" = some "OUTPUT_TABLES"
      · simp only [h1, h2, Option.some.injEq, reduceIte, if_false] at hx
        rcases mem_dictInsert hx with h3 | h3
        · exact Or.inl h3
        · rw [h3]; exact Or.inr (by simp [promotedKeys])
      · simp only [h1, h2, if_false] at hx
        exact Or.inl hx
  · rw [if_neg hcn] at hx
    by_cases hq : p.attr "name" = some "QUERY" ∧ truthy (resolveValue p)
    · rw [if_pos hq] at hx
      rcases mem_dictInsert hx with h3 | h3
      · exact Or.inl h3
      · rw [h3]; exact Or.inr (by simp [promotedKeys])
    rw [if_neg hq] at hx
    by_cases hfn : p.attr "name" = some "FILENAME" ∧ truthy (resolveValue p)
    · rw [if_pos hfn] at hx
      rcases mem_dictInsert hx with h3 | h3
      · exact Or.inl h3
      · rw [h3]; exact Or.inr (by simp [promotedKeys])
    rw [if_neg hfn] at hx
    by_cases ht : p.attr "name" = some "TABLE" ∧ truthy (resolveValue p)
    · rw [if_pos ht] at hx
      rcases mem_dictInsert hx with h3 | h3
      · exact Or.inl h3
      · rw [h3]; exact Or.inr (by simp [promotedKeys])
    rw [if_neg ht] at hx
    exact Or.inl hx

lemma keys_promoteParam_mono {cn : Option String} {params : List (String × ParamVal)}
    {p : Xml} {k : String} (hk : k ∈ params.map Prod.fst) :
    k ∈ (promoteParam cn params p).map Prod.fst := by
  unfold promoteParam
  by_cases hcn : cn = some "tMap"
  · rw [if_pos hcn]
    by_cases h1 : p.attr "name" = some "VAR_TABLE"
    · simp only [h1, Option.some.injEq, reduceIte]
      exact keys_dictInsert_mono hk _ _
    · by_cases h2 : p.attr "name" = some "OUTPUT_TABLES"
      · simp only [h1, h2, Option.some.injEq, reduceIte, if_false]
        exact keys_dictInsert_mono hk _ _
      · simp only [h1, h2, if_false]
        exact hk
  · rw [if_neg hcn]
    by_cases hq : p.attr "name" = some "QUERY" ∧ truthy (resolveValue p)
    · rw [if_pos hq]
      exact keys_dictInsert_mono hk _ _
    rw [if_neg hq]
    by_cases hfn : p.attr "name" = some "FILENAME" ∧ truthy (resolveValue p)
    · rw [if_pos hfn]
      exact keys_dictInsert_mono hk _ _
    rw [if_neg hfn]
    by_cases ht : p.attr "name" = some "TABLE" ∧ truthy (resolveValue p)
    · rw [if_pos ht]
      exact keys_dictInsert_mono hk _ _
    rw [if_neg ht]
    exact hk

lemma keys_processParam_mono {cn : Option String} {params : List (String × ParamVal)}
    {p : Xml} {k : String} (hk : k ∈ params.map Prod.fst) :
    k ∈ (processParam cn params p).map Prod.fst :=
  keys_promoteParam_mono (keys_genericParamInsert_mono hk)

lemma mem_processParam {cn : Option String} {params : List (String × ParamVal)} {p : Xml}
    {x : String × ParamVal} (hx : x ∈ processParam cn params p) :
    x ∈ params ∨
      (p.attr "name" = some x.1 ∧ x.1 ∉ denylist ∧
        ∃ f, p.attr "field" = some f ∧ f ≠ "") ∨
      x.1 ∈ promotedKeys := by
  rcases mem_promoteParam hx with h | h
  · rcases mem_genericParamInsert h with h' | h'
    · exact Or.inl h'
    · exact Or.inr (Or.inl h')
  · exact Or.inr (Or.inr h)

lemma promoteParam_find_ne {cn : Option String} {params : List (String × ParamVal)}
    {p : Xml} {k : String} (hk : k ∉ promotedKeys) :
    (promoteParam cn params p).find? (fun q => q.1 == k) =
      params.find? (fun q => q.1 == k) := by
  have hne : ∀ kk, kk ∈ promotedKeys → k ≠ kk := fun kk hkk he => hk (he ▸ hkk)
  unfold promoteParam
  by_cases hcn : cn = some "tMap"
  · rw [if_pos hcn]
    by_cases h1 : p.attr "name" = some "VAR_TABLE"
    · simp only [h1, Option.some.injEq, reduceIte]
      exact dictInsert_find_ne (hne _ (by simp [promotedKeys])) _ _
    · by_cases h2 : p.attr "name" = some "OUTPUT_TABLES"
      · simp only [h1, h2, Option.some.injEq, reduceIte, if_false]
        exact dictInsert_find_ne (hne _ (by simp [promotedKeys])) _ _
      · simp only [h1, h2, if_false]
  · rw [if_neg hcn]
    by_cases hq : p.attr "name" = some "QUERY" ∧ truthy (resolveValue p)
    · rw [if_pos hq]
      exact dictInsert_find_ne (hne _ (by simp [promotedKeys])) _ _
    rw [if_neg hq]
    by_cases hfn : p.attr "name" = some "FILENAME" ∧ truthy (resolveValue p)
    · rw [if_pos hfn]
      exact dictInsert_find_ne (hne _ (by simp [promotedKeys])) _ _
    rw [if_neg hfn]
    by_cases ht : p.attr "name" = some "TABLE" ∧ truthy (resolveValue p)
    · rw [if_pos ht]
      exact dictInsert_find_ne (hne _ (by simp [promotedKeys])) _ _
    rw [if_neg ht]

lemma genericParamInsert_find {params : List (String × ParamVal)} {p : Xml}
    {n v f : String} (hn : p.attr "name" = some n) (hv : resolveValue p = some v)
    (hf : p.attr "field" = some f) (hf0 : f ≠ "") (hn0 : n ≠ "") (hnd : n ∉ denylist) :
    (genericParamInsert params p).find? (fun q => q.1 == n) =
      some (n, some (stripQuotes v)) := by
  unfold genericParamInsert
  rw [hn, hv, hf]
  show (if f ≠ "" ∧ n ≠ "" ∧ n ∉ denylist
      then dictInsert params n (some (stripQuotes v)) else params).find?
      (fun q => q.1 == n) = some (n, some (stripQuotes v))
  rw [if_pos ⟨hf0, hn0, hnd⟩]
  exact dictInsert_find_self _ _ _

lemma promoteParam_find_promoted {cn : Option String} {params : List (String × ParamVal)}
    {p : Xml} (hcn : cn ≠ some "tMap") {pname key : String}
    (hpk : (pname, key) ∈ promotionPairs) (hn : p.attr "name" = some pname)
    {v : String} (hv : resolveValue p = some v) (hne : v ≠ "") :
    (promoteParam cn params p).find? (fun q => q.1 == key) =
      some (key, some (stripQuotes v)) := by
  have htr : truthy (resolveValue p) = true := by
    rw [hv]
    simp [truthy, hne]
  have hpk' : (pname = "QUERY" ∧ key = "sql_query") ∨
      (pname = "FILENAME" ∧ key = "filepath") ∨
      (pname = "TABLE" ∧ key = "db_table_name") := by
    simpa [promotionPairs, Prod.ext_iff] using hpk
  unfold promoteParam
  rw [if_neg hcn]
  rcases hpk' with ⟨h1, h2⟩ | ⟨h1, h2⟩ | ⟨h1, h2⟩ <;> subst h1 <;> subst h2
  · rw [if_pos ⟨hn, htr⟩, hv]
    simp only [Option.getD_some]
    exact dictInsert_find_self _ _ _
  · have hnq : ¬(p.attr "name" = some "QUERY" ∧ truthy (resolveValue p)) := by
      rw [hn]
      simp
    rw [if_neg hnq, if_pos ⟨hn, htr⟩, hv]
    simp only [Option.getD_some]
    exact dictInsert_find_self _ _ _
  · have hnq : ¬(p.attr "name" = some "QUERY" ∧ truthy (resolveValue p)) := by
      rw [hn]
      simp
    have hnf : ¬(p.attr "name" = some "FILENAME" ∧ truthy (resolveValue p)) := by
      rw [hn]
      simp
    rw [if_neg hnq, if_neg hnf, if_pos ⟨hn, htr⟩, hv]
    simp only [Option.getD_some]
    exact dictInsert_find_self _ _ _

lemma processParam_find_promoted {cn : Option String} {params : List (String × ParamVal)}
    {p : Xml} (hcn : cn ≠ some "tMap") {pname key : String}
    (hpk : (pname, key) ∈ promotionPairs) (hn : p.attr "name" = some pname)
    {v : String} (hv : resolveValue p = some v) (hne : v ≠ "") :
    (processParam cn params p).find? (fun q => q.1 == key) =
      some (key, some (stripQuotes v)) :=
  promoteParam_find_promoted hcn hpk hn hv hne

lemma processParam_find_generic {cn : Option String} {params : List (String × ParamVal)}
    {p : Xml} {n v f : String} (hn : p.attr "name" = some n)
    (hv : resolveValue p = some v) (hf : p.attr "field" = some f) (hf0 : f ≠ "")
    (hn0 : n ≠ "") (hnd : n ∉ denylist) (hnp : n ∉ promotedKeys) :
    (processParam cn params p).find? (fun q => q.1 == n) =
      some (n, some (stripQuotes v)) := by
  unfold processParam
  rw [promoteParam_find_ne hnp]
  exact genericParamInsert_find hn hv hf hf0 hn0 hnd

lemma foldl_processParam_keys_mono {cn : Option String} {l : List Xml}
    {acc : List (String × ParamVal)} {k : String} (hk : k ∈ acc.map Prod.fst) :
    k ∈ (l.foldl (processParam cn) acc).map Prod.fst := by
  induction l generalizing acc with
  | nil => exact hk
  | cons p l ih =>
    rw [List.foldl_cons]
    exact ih (keys_processParam_mono hk)

lemma foldl_processParam_key_present {cn : Option String} {l : List Xml}
    {acc : List (String × ParamVal)} {pname key : String} {p : Xml} {v : String}
    (hcn : cn ≠ some "tMap") (hpk : (pname, key) ∈ promotionPairs) (hp : p ∈ l)
    (hn : p.attr "name" = some pname) (hv : resolveValue p = some v) (hne : v ≠ "") :
    key ∈ (l.foldl (processParam cn) acc).map Prod.fst := by
  induction l generalizing acc with
  | nil => cases hp
  | cons q l ih =>
    rw [List.foldl_cons]
    rcases List.mem_cons.mp hp with h | h
    · subst h
      have h1 : (processParam cn acc p).find? (fun q => q.1 == key) =
          some (key, some (stripQuotes v)) := processParam_find_promoted hcn hpk hn hv hne
      have h2 : (key, some (stripQuotes v)) ∈ processParam cn acc p :=
        List.mem_of_find?_eq_some h1
      exact foldl_processParam_keys_mono (List.mem_map.mpr ⟨_, h2, rfl⟩)
    · exact ih h

lemma foldl_processParam_denylist {cn : Option String} {l : List Xml}
    {acc : List (String × ParamVal)} (hacc : ∀ x ∈ acc, x.1 ∉ denylist) :
    ∀ x ∈ l.foldl (processParam cn) acc, x.1 ∉ denylist := by
  induction l generalizing acc with
  | nil => exact hacc
  | cons p l ih =>
    rw [List.foldl_cons]
    refine ih (fun x hx => ?_)
    rcases mem_processParam hx with h | h | h
    · exact hacc x h
    · exact h.2.1
    · have h5 : x.1 = "sql_query" ∨ x.1 = "filepath" ∨ x.1 = "db_table_name" ∨
          x.1 = "tMap_variables_raw" ∨ x.1 = "tMap_outputs_raw" := by
        simpa [promotedKeys] using h
      rcases h5 with h'|h'|h'|h'|h' <;> rw [h'] <;> decide

lemma foldl_processParam_not_mem {cn : Option String} {l : List Xml}
    {acc : List (String × ParamVal)} {n : String} (hnp : n ∉ promotedKeys)
    (hfield : ∀ p ∈ l, p.attr "name" = some n →
      p.attr "field" = none ∨ p.attr "field" = some "")
    (hacc : ∀ v, (n, v) ∉ acc) :
    ∀ v, (n, v) ∉ l.foldl (processParam cn) acc := by
  induction l generalizing acc with
  | nil => exact hacc
  | cons p l ih =>
    rw [List.foldl_cons]
    refine ih (fun q hq => hfield q (List.mem_cons_of_mem _ hq)) (fun v hv => ?_)
    rcases mem_processParam hv with h | h | h
    · exact hacc v h
    · rcases h.2.2 with ⟨f, hf, hf0⟩
      rcases hfield p (List.mem_cons_self _ _) h.1 with h' | h'
      · rw [h'] at hf
        exact Option.noConfusion hf
      · rw [h'] at hf
        exact hf0 (Option.some.inj hf).symm
    · exact hnp h

lemma mergeSchema_none {acc : List (String × List Column)} {s : Schema}
    (hsn : s.name = none) : mergeSchema acc s = acc := by
  unfold mergeSchema
  rw [hsn]

lemma mergeSchema_some {acc : List (String × List Column)} {s : Schema} {m : String}
    (hsn : s.name = some m) :
    mergeSchema acc s =
      if m ≠ "" ∧ ¬ acc.any (fun q => q.1 == m) then acc ++ [(m, s.columns)]
      else acc := by
  unfold mergeSchema
  rw [hsn]

lemma foldl_mergeSchema_find_of_some {l : List Schema}
    {acc : List (String × List Column)} {n : String} {x : String × List Column}
    (hacc : acc.find? (fun q => q.1 == n) = some x) :
    (l.foldl mergeSchema acc).find? (fun q => q.1 == n) = some x := by
  induction l generalizing acc with
  | nil => exact hacc
  | cons s l ih =>
    rw [List.foldl_cons]
    refine ih ?_
    rcases hsn : s.name with _ | m
    · rw [mergeSchema_none hsn]
      exact hacc
    rw [mergeSchema_some hsn]
    by_cases hcond : m ≠ "" ∧ ¬ acc.any (fun q => q.1 == m)
    · rw [if_pos hcond, List.find?_append, hacc]
      rfl
    · rw [if_neg hcond]
      exact hacc

lemma foldl_mergeSchema_find_of_none {l : List Schema}
    {acc : List (String × List Column)} {n : String} (hn : n ≠ "")
    (hacc : acc.find? (fun q => q.1 == n) = none) :
    (l.foldl mergeSchema acc).find? (fun q => q.1 == n) =
      (l.find? (fun s => s.name == some n)).map (fun s => (n, s.columns)) := by
  induction l generalizing acc with
  | nil => simp [hacc]
  | cons s l ih =>
    rw [List.foldl_cons]
    rcases hsn : s.name with _ | m
    · rw [mergeSchema_none hsn, ih hacc, List.find?_cons_of_neg]
      simp [hsn]
    by_cases hm : m = n
    · subst hm
      have hany : ¬ acc.any (fun q => q.1 == m) := by
        intro hc
        rcases List.any_eq_true.mp hc with ⟨q, hq, hq'⟩
        exact List.find?_eq_none.mp hacc q hq hq'
      have hstep : mergeSchema acc s = acc ++ [(m, s.columns)] := by
        rw [mergeSchema_some hsn, if_pos ⟨hn, hany⟩]
      rw [hstep]
      have hfind : (acc ++ [(m, s.columns)]).find? (fun q => q.1 == m) =
          some (m, s.columns) := by
        rw [List.find?_append, hacc]
        simp [List.find?_cons]
      rw [foldl_mergeSchema_find_of_some hfind, List.find?_cons_of_pos]
      · simp [hsn]
      · simp [hsn]
    · have hfindpres : (mergeSchema acc s).find? (fun q => q.1 == n) = none := by
        rw [mergeSchema_some hsn]
        by_cases hcond : m ≠ "" ∧ ¬ acc.any (fun q => q.1 == m)
        · rw [if_pos hcond, List.find?_append, hacc]
          simp [List.find?_cons, hm]
        · rw [if_neg hcond]
          exact hacc
      rw [ih hfindpres, List.find?_cons_of_neg]
      simp [hsn, hm]

lemma extractComponent_parameters_eq (nd : Xml) :
    (extractComponent nd).parameters =
      match hintValue nd with
      | some h => dictInsert ((nd.findall "elementParameter").foldl
          (processParam (nd.attr "componentName")) []) "hint" (some h)
      | none => (nd.findall "elementParameter").foldl
          (processParam (nd.attr "componentName")) [] := rfl

lemma extractComponent_label_eq (nd : Xml) :
    (extractComponent nd).label =
      match labelOverride nd with
      | some v => some v
      | none => nd.attr "uniqueName" := rfl

lemma mem_of_findFirst {x : Xml} {t : String} {e : Xml} (h : x.findFirst t = some e) :
    e ∈ x.findall t := by
  unfold Xml.findFirst at h
  rcases hl : x.findall t with _ | ⟨a, l⟩
  · rw [hl] at h
    cases h
  · rw [hl] at h
    simp only [List.head?_cons, Option.some.injEq] at h
    rw [← h]
    exact List.mem_cons_self _ _

/-- C4: for every well-formed document and every component in the result,
no denylisted parameter name ever appears as a key of that component's
`parameters` mapping, regardless of the parameter's value. -/
theorem denylisted_names_never_parameter_keys (root : Xml) :
    ∀ c ∈ (parse_talend_xml (Except.ok root)).components,
      ∀ x ∈ c.parameters, x.1 ∉ denylist := by
  intro c hc x hx
  have hcomps : (parse_talend_xml (Except.ok root)).components =
      (root.findall "node").map extractComponent := rfl
  rw [hcomps] at hc
  rcases List.mem_map.mp hc with ⟨nd, hnd, rfl⟩
  rw [extractComponent_parameters_eq] at hx
  rcases hh : hintValue nd with _ | h
  · rw [hh] at hx
    have hx' : x ∈ (nd.findall "elementParameter").foldl
        (processParam (nd.attr "componentName")) [] := hx
    exact foldl_processParam_denylist (by simp) x hx'
  · rw [hh] at hx
    have hx' : x ∈ dictInsert ((nd.findall "elementParameter").foldl
        (processParam (nd.attr "componentName")) []) "hint" (some h) := hx
    rcases mem_dictInsert hx' with h1 | h1
    · exact foldl_processParam_denylist (by simp) x h1
    · rw [h1]
      show ("hint" : String) ∉ denylist
      decide

/-- C4 witness: the custom parameter of the sample document is a parameter
key, and the claim's conclusion holds for it. -/
theorem denylisted_names_never_parameter_keys_witness :
    ("CUSTOM", (some "v1" : ParamVal)).1 ∉ denylist :=
  denylisted_names_never_parameter_keys customDoc (extractComponent customNode)
    (by decide) ("CUSTOM", some "v1") (by decide)

/-- C5: for a malformed input, `parse_talend_xml` returns (without raising)
the default summary with empty collections, the `"unknown_job"` sentinel and
a parse-failure error message. -/
theorem malformed_input_returns_defaults (e : String) :
    parse_talend_xml (Except.error e) =
      { job_name := "unknown_job", components := [], connections := [],
        metadata := [], notes := [], error := some ("Failed to parse XML: " ++ e) } := rfl

/-- C2: `parse_talend_xml` is total — it always returns a `JobSummary`; on a
parse failure the error field is set and the defaults are kept, and on the
success path the error field is absent and all accumulated components,
connections and notes are present. -/
theorem extractor_never_raises (input : Except String Xml) :
    (∃ s : JobSummary, parse_talend_xml input = s) ∧
    (∀ e, input = Except.error e →
      (parse_talend_xml input).error = some ("Failed to parse XML: " ++ e) ∧
      (parse_talend_xml input).job_name = "unknown_job" ∧
      (parse_talend_xml input).components = [] ∧
      (parse_talend_xml input).connections = [] ∧
      (parse_talend_xml input).metadata = [] ∧
      (parse_talend_xml input).notes = []) ∧
    (∀ root, input = Except.ok root →
      (parse_talend_xml input).error = none ∧
      (parse_talend_xml input).components =
        (root.findall "node").map extractComponent ∧
      (parse_talend_xml input).connections =
        (root.findall "connection").map extractConnection ∧
      (parse_talend_xml input).notes =
        (root.findall "note").map (fun n => n.attr "text")) := by
  refine ⟨⟨_, rfl⟩, ?_, ?_⟩
  · rintro e rfl
    exact ⟨rfl, rfl, rfl, rfl, rfl, rfl⟩
  · rintro root rfl
    exact ⟨rfl, rfl, rfl, rfl⟩

/-- C2 witness: the error path at a concrete malformed input. -/
theorem extractor_never_raises_witness :
    (parse_talend_xml (Except.error "boom")).error =
      some "Failed to parse XML: boom" ∧
    (parse_talend_xml (Except.error "boom")).components = [] :=
  ⟨((extractor_never_raises (Except.error "boom")).2.1 "boom" rfl).1,
    ((extractor_never_raises (Except.error "boom")).2.1 "boom" rfl).2.2.1⟩

/-- C8: the end-to-end scenario — one `tFileInputFile` node with a quoted
`FILENAME` parameter and no `LABEL` yields exactly one component with the
componentName as `type`, the uniqueName as `label`, and the quote-stripped
path under the promoted `filepath` key. -/
theorem file_input_end_to_end :
    (parse_talend_xml (Except.ok sampleFileDoc)).components.map
      (fun c => (c.type, c.label, c.parameters.find? (fun q => q.1 == "filepath"))) =
      [(some "tFileInputFile", some "tFileInputFile_1",
        some ("filepath", some "/data/in.csv"))] := by
  decide

/-- C3: for a non-empty schema name, the job-level metadata mapping binds it
to the columns of the first schema of that name in document order (never
overwritten or merged by later same-named schemas), while every schema still
appears in its own component's local metadata list. -/
theorem metadata_first_seen_wins (root : Xml) (n : String) (hn : n ≠ "") :
    ((parse_talend_xml (Except.ok root)).metadata.find? (fun q => q.1 == n) =
      (((parse_talend_xml (Except.ok root)).components.flatMap
        Component.metadata).find? (fun s => s.name == some n)).map
        (fun s => (n, s.columns))) ∧
    (∀ nd ∈ root.findall "node",
      extractComponent nd ∈ (parse_talend_xml (Except.ok root)).components ∧
      ∀ m ∈ nd.findall "metadata",
        extractSchema m ∈ (extractComponent nd).metadata) := by
  constructor
  · have hmeta : (parse_talend_xml (Except.ok root)).metadata =
        (((root.findall "node").map extractComponent).flatMap
          Component.metadata).foldl mergeSchema [] := rfl
    have hcomp : (parse_talend_xml (Except.ok root)).components =
        (root.findall "node").map extractComponent := rfl
    rw [hmeta, hcomp]
    exact foldl_mergeSchema_find_of_none hn rfl
  · intro nd hnd
    constructor
    · exact List.mem_map.mpr ⟨nd, hnd, rfl⟩
    · intro m hm
      have hml : (extractComponent nd).metadata =
          (nd.findall "metadata").map extractSchema := rfl
      rw [hml]
      exact List.mem_map.mpr ⟨m, hm, rfl⟩

/-- C3 witness: in the sample document two schemas named `row1` occur in two
components; the job-level entry is the first one in document order. -/
theorem metadata_first_seen_wins_witness :
    (parse_talend_xml (Except.ok sampleMetaDoc)).metadata.find?
        (fun q => q.1 == "row1") =
      (((parse_talend_xml (Except.ok sampleMetaDoc)).components.flatMap
        Component.metadata).find? (fun s => s.name == some "row1")).map
        (fun s => ("row1", s.columns)) :=
  (metadata_first_seen_wins sampleMetaDoc "row1" (by decide)).1

/-- C6: the value used for a parameter is the element's text content when
that text is non-empty, and otherwise (text empty or absent) the element's
`value` attribute.  A parsed ElementTree element never carries an
empty-string text, which the hypothesis records. -/
theorem param_value_resolution (p : Xml) (htext : p.text ≠ some "") :
    ((∃ t, p.text = some t ∧ t ≠ "") → resolveValue p = p.text) ∧
    ((p.text = none ∨ p.text = some "") → resolveValue p = p.attr "value") := by
  constructor
  · rintro ⟨t, ht, -⟩
    unfold resolveValue
    rw [ht]
  · rintro (h | h)
    · unfold resolveValue
      rw [h]
    · exact absurd h htext

/-- C6 witness: a concrete element with text resolves to the text; one
without text resolves to the `value` attribute. -/
theorem param_value_resolution_witness :
    resolveValue textValueElem = textValueElem.text ∧
    resolveValue attrValueElem = attrValueElem.attr "value" :=
  ⟨(param_value_resolution textValueElem (by decide)).1 ⟨"t", rfl, by decide⟩,
    (param_value_resolution attrValueElem (by decide)).2 (Or.inl rfl)⟩

/-- C7: when no namespaced `Property` element carries a `label` attribute
and no `processType` element carries a `name` attribute, the job name is the
sentinel `"unknown_job"`. -/
theorem job_name_sentinel_when_absent (root : Xml)
    (h1 : ∀ e ∈ root.findall talendPropertyTag, e.attr "label" = none)
    (h2 : ∀ e ∈ root.findall "processType", e.attr "name" = none) :
    (parse_talend_xml (Except.ok root)).job_name = "unknown_job" := by
  have hfb : resolveJobNameFallback root = "unknown_job" := by
    unfold resolveJobNameFallback
    rcases hpt : root.findFirst "processType" with _ | pt
    · rfl
    · show (match pt.attr "name" with
        | some n => if n ≠ "" then n else "unknown_job"
        | none => "unknown_job") = "unknown_job"
      rw [h2 pt (mem_of_findFirst hpt)]
  have hjn : (parse_talend_xml (Except.ok root)).job_name = resolveJobName root := rfl
  rw [hjn]
  unfold resolveJobName
  rcases hp : root.findFirst talendPropertyTag with _ | jobInfo
  · exact hfb
  · show (match jobInfo.attr "label" with
      | some l => if l ≠ "" then l else resolveJobNameFallback root
      | none => resolveJobNameFallback root) = "unknown_job"
    rw [h1 jobInfo (mem_of_findFirst hp)]
    exact hfb

/-- C7 witness: a document with neither element yields the sentinel. -/
theorem job_name_sentinel_when_absent_witness :
    (parse_talend_xml (Except.ok emptyDoc)).job_name = "unknown_job" :=
  job_name_sentinel_when_absent emptyDoc (by decide) (by decide)

/-- C9: a node lacking `componentName` and/or `uniqueName` is still turned
into a component without setting the error field; the missing attributes
become null `type` / `unique_name`, and without a LABEL override the label
is the same null unique name. -/
theorem nodes_missing_attrs_tolerated (root : Xml) (nd : Xml)
    (hnd : nd ∈ root.findall "node") :
    (parse_talend_xml (Except.ok root)).error = none ∧
    extractComponent nd ∈ (parse_talend_xml (Except.ok root)).components ∧
    (nd.attr "componentName" = none → (extractComponent nd).type = none) ∧
    (nd.attr "uniqueName" = none → (extractComponent nd).unique_name = none) ∧
    (nd.attr "uniqueName" = none → labelOverride nd = none →
      (extractComponent nd).label = none) := by
  refine ⟨rfl, List.mem_map.mpr ⟨nd, hnd, rfl⟩, ?_, ?_, ?_⟩
  · intro h
    exact h
  · intro h
    exact h
  · intro hu hl
    rw [extractComponent_label_eq, hl]
    exact hu

/-- C9 witness: the attribute-less node of the sample document. -/
theorem nodes_missing_attrs_tolerated_witness :
    (parse_talend_xml (Except.ok bareDoc)).error = none ∧
    (extractComponent bareNode).type = none ∧
    (extractComponent bareNode).label = none :=
  ⟨(nodes_missing_attrs_tolerated bareDoc bareNode (by decide)).1,
    (nodes_missing_attrs_tolerated bareDoc bareNode (by decide)).2.2.1 rfl,
    (nodes_missing_attrs_tolerated bareDoc bareNode (by decide)).2.2.2.2 rfl rfl⟩

/-- C10: a parameter name all of whose occurrences lack a truthy `field`
attribute never becomes a key of the component's parameters mapping (unless
the name is itself one of the promoted keys); only the promoted keys can
still be added for such a parameter. -/
theorem fieldless_params_not_inserted (nd : Xml) (n : String)
    (hfield : ∀ p ∈ nd.findall "elementParameter", p.attr "name" = some n →
      p.attr "field" = none ∨ p.attr "field" = some "")
    (hnp : n ∉ promotedKeys) (hh : n ≠ "hint") :
    ∀ v, (n, v) ∉ (extractComponent nd).parameters := by
  intro v hv
  rw [extractComponent_parameters_eq] at hv
  rcases hhv : hintValue nd with _ | h
  · rw [hhv] at hv
    have hv' : (n, v) ∈ (nd.findall "elementParameter").foldl
        (processParam (nd.attr "componentName")) [] := hv
    exact foldl_processParam_not_mem hnp hfield (by simp) v hv'
  · rw [hhv] at hv
    have hv' : (n, v) ∈ dictInsert ((nd.findall "elementParameter").foldl
        (processParam (nd.attr "componentName")) []) "hint" (some h) := hv
    rcases mem_dictInsert hv' with h1 | h1
    · exact foldl_processParam_not_mem hnp hfield (by simp) v h1
    · exact hh (congrArg Prod.fst h1)

/-- C10 witness: the field-less `CUSTOM` parameter with a non-null value is
not inserted. -/
theorem fieldless_params_not_inserted_witness :
    ("CUSTOM", (some "x" : ParamVal)) ∉ (extractComponent noFieldNode).parameters :=
  fieldless_params_not_inserted noFieldNode "CUSTOM" (by decide) (by decide)
    (by decide) (some "x")

/-- C1 counterexample: in the concrete document, the tMap component carries
a `QUERY` parameter with the quoted non-null value `"SELECT 1"` and the
`tDBInput` component carries a `QUERY` parameter with the non-null empty
value, yet neither component's parameters mapping contains `sql_query` —
refuting the claim that the promotion fires regardless of the component's
kind for every non-null value. -/
theorem query_promotion_counterexample :
    (parse_talend_xml (Except.ok promotionCexDoc)).components.map
      (fun c => (c.type, c.parameters)) =
      [(some "tMap", [("QUERY", some "SELECT 1")]),
       (some "tDBInput", [("QUERY", some "")])] := by
  decide

/-- C1 (amended): outside tMap components, an elementParameter named
`QUERY` (resp. `FILENAME`, `TABLE`) with a non-null, non-empty value has
the promoted key `sql_query` (resp. `filepath`, `db_table_name`) present in
the component's final parameters mapping; at the loop step where it is
encountered the promoted key maps to the quote-stripped value, in addition
to (not instead of) the generic insertion under the parameter's own name
when that applies. -/
theorem promotion_rules_outside_tMap (nd : Xml)
    (hcomp : nd.attr "componentName" ≠ some "tMap")
    (pname key : String) (hpk : (pname, key) ∈ promotionPairs)
    (p : Xml) (hp : p ∈ nd.findall "elementParameter")
    (hname : p.attr "name" = some pname)
    (v : String) (hv : resolveValue p = some v) (hne : v ≠ "") :
    key ∈ (extractComponent nd).parameters.map Prod.fst ∧
    (∀ params : List (String × ParamVal),
      (processParam (nd.attr "componentName") params p).find?
          (fun q => q.1 == key) = some (key, some (stripQuotes v)) ∧
      (∀ f, p.attr "field" = some f → f ≠ "" →
        (processParam (nd.attr "componentName") params p).find?
          (fun q => q.1 == pname) = some (pname, some (stripQuotes v)))) := by
  have hpk3 : (pname = "QUERY" ∧ key = "sql_query") ∨
      (pname = "FILENAME" ∧ key = "filepath") ∨
      (pname = "TABLE" ∧ key = "db_table_name") := by
    simpa [promotionPairs, Prod.ext_iff] using hpk
  constructor
  · have hbase : key ∈ ((nd.findall "elementParameter").foldl
        (processParam (nd.attr "componentName")) []).map Prod.fst :=
      foldl_processParam_key_present hcomp hpk hp hname hv hne
    rw [extractComponent_parameters_eq]
    rcases hhv : hintValue nd with _ | h
    · exact hbase
    · exact keys_dictInsert_mono hbase _ _
  · intro params
    constructor
    · exact processParam_find_promoted hcomp hpk hname hv hne
    · intro f hf hf0
      have hn0 : pname ≠ "" := by
        rcases hpk3 with ⟨h, -⟩ | ⟨h, -⟩ | ⟨h, -⟩ <;> rw [h] <;> decide
      have hndl : pname ∉ denylist := by
        rcases hpk3 with ⟨h, -⟩ | ⟨h, -⟩ | ⟨h, -⟩ <;> rw [h] <;> decide
      have hnp : pname ∉ promotedKeys := by
        rcases hpk3 with ⟨h, -⟩ | ⟨h, -⟩ | ⟨h, -⟩ <;> rw [h] <;> decide
      exact processParam_find_generic hname hv hf hf0 hn0 hndl hnp

/-- C1 witness: the quoted `SELECT 1` query on a `tDBInput` node yields the
promoted `sql_query` key. -/
theorem promotion_rules_outside_tMap_witness :
    "sql_query" ∈ (extractComponent dbQueryNode).parameters.map Prod.fst :=
  (promotion_rules_outside_tMap dbQueryNode (by decide) "QUERY" "sql_query"
    (by decide) dbQueryParam (by decide) (by decide) "\"SELECT 1\"" (by decide)
    (by decide)).1
